import Mathlib

/-!
Verification development for the OpenCello mold-generation geometry pipeline
(`src/python/mold_gen_blockflats_pins.py`).

The source operates on exact 2-D geometry through the shapely library.  The
shallow embedding below works over `ℚ × ℚ`:

* `half_plane_polygon`, `clip_with_flat`, `curvature_peaks`,
  `pick_four_corners`, `pick_two_by_long`, `default_pins` and `split_halves`
  are translated from the synonymous Python functions.
* Calls into shapely (an external dependency, not part of this repository)
  are modelled executably: `Polygon.intersection` with the bounded convex
  half-plane quad is modelled by Sutherland–Hodgman clipping
  (`sutherlandHodgman`), `Polygon.area` by the shoelace formula (`areaQ`),
  point membership by even-odd ray crossing (`inPolygon`), and
  `Polygon.contains(point.buffer(r))` by the exact disk-containment
  criterion (`containsDisk`).  `shapely.ops.split` by an axis-parallel
  centerline is modelled by clipping with the two closed half-planes on
  either side of the line (`splitPieces`).
* The Python `normalize` uses `math.hypot` (a real square root), which has
  no exact rational counterpart; the embedding therefore takes the outward
  normal as given.  This is faithful whenever the supplied normal is a unit
  vector, which covers every axis-aligned call made by the pipeline.
* `math.acos` of the clamped normalized dot product is a strictly
  decreasing bijection from the cosine to the angle, so the curvature score
  is represented by the pair (dot, squared product of norms): ranking by
  descending angle is ranking by ascending `cosLe` on those pairs, and with
  exact arithmetic the clamp to [-1, 1] is a no-op (Cauchy-Schwarz).
-/

attribute [local semireducible] Rat.mul Rat.inv Rat.add Rat.sub

/-- Planar point with exact rational coordinates (`Point2D` of the spec). -/
abbrev Q2 : Type := ℚ × ℚ

/-- Dot product of two planar vectors. -/
def dotQ (u v : Q2) : ℚ := u.1 * v.1 + u.2 * v.2

/-- Planar cross product (z-component). -/
def crossQ (u v : Q2) : ℚ := u.1 * v.2 - u.2 * v.1

/-- Componentwise difference `p - q` of two points. -/
def vsub (p q : Q2) : Q2 := (p.1 - q.1, p.2 - q.2)

/-- Pairs `(s, e)` of cyclically consecutive elements: `e` ranges over the
list in order and `s` is its cyclic predecessor (the last element precedes
the first).  This is the edge traversal used by polygon algorithms below. -/
def cyclicPairs {α : Type} (l : List α) : List (α × α) :=
  match l with
  | [] => []
  | x :: xs => (((x :: xs).getLast (by simp)) :: (x :: xs).dropLast).zip (x :: xs)

/-- First point on the clip line: `a = p0 + t*extent` with tangent
`t = (-ny, nx)` (source lines 86-91). -/
def hpA (p0 n : Q2) (ext : ℚ) : Q2 :=
  (p0.1 + -n.2 * ext, p0.2 + n.1 * ext)

/-- Second point on the clip line (`b = p0 - t*extent`, source line 92). -/
def hpB (p0 n : Q2) (ext : ℚ) : Q2 :=
  (p0.1 - -n.2 * ext, p0.2 - n.1 * ext)

/-- Far corner behind `hpB` on the keep side (`c`, source line 97). -/
def hpC (p0 n : Q2) (ext : ℚ) : Q2 :=
  ((hpB p0 n ext).1 - n.1 * ext, (hpB p0 n ext).2 - n.2 * ext)

/-- Far corner behind `hpA` on the keep side (`d`, source line 98). -/
def hpD (p0 n : Q2) (ext : ℚ) : Q2 :=
  ((hpA p0 n ext).1 - n.1 * ext, (hpA p0 n ext).2 - n.2 * ext)

/-- Translation of `half_plane_polygon(p0, n_out, keep_inside, extent)`
(source lines 78-103): a large quad (clockwise ring `[a, b, c, d]`)
covering the bounded part of one side of the line through `p0` with
outward normal `n_out`.  The source first normalizes `n_out` with a real
square root; the embedding takes the normal as given, which is exact
whenever `n_out` is already a unit vector (true of every call the
pipeline makes). -/
def half_plane_polygon (p0 n_out : Q2) (keep_inside : Bool) (extent : ℚ) :
    List Q2 :=
  if keep_inside then
    [hpA p0 n_out extent, hpB p0 n_out extent,
     hpC p0 n_out extent, hpD p0 n_out extent]
  else
    [hpA p0 n_out extent, hpB p0 n_out extent,
     ((hpB p0 n_out extent).1 + n_out.1 * extent,
      (hpB p0 n_out extent).2 + n_out.2 * extent),
     ((hpA p0 n_out extent).1 + n_out.1 * extent,
      (hpA p0 n_out extent).2 + n_out.2 * extent)]

/-- Inside test for one directed clip edge `u → v`: the quads produced by
`half_plane_polygon` wind clockwise, so the kept side is the right side of
the directed edge, i.e. `cross (v - u) (q - u) ≤ 0`. -/
def insideEdge (u v q : Q2) : Bool :=
  decide (crossQ (vsub v u) (vsub q u) ≤ 0)

/-- Intersection of the segment `s → e` with the line through `u` and `v`
(used by the clipper exactly when the segment crosses the line). -/
def interEdge (u v s e : Q2) : Q2 :=
  let cs := crossQ (vsub v u) (vsub s u)
  let ce := crossQ (vsub v u) (vsub e u)
  let t := cs / (cs - ce)
  (s.1 + t * (e.1 - s.1), s.2 + t * (e.2 - s.2))

/-- Output of one Sutherland–Hodgman step for the subject edge `s → e`
against the clip edge `u → v`. -/
def clipPair (u v s e : Q2) : List Q2 :=
  if insideEdge u v e then
    if insideEdge u v s then [e] else [interEdge u v s e, e]
  else
    if insideEdge u v s then [interEdge u v s e] else []

/-- One Sutherland–Hodgman pass: clip the subject polygon by the single
directed edge `u → v`. -/
def clipEdge (u v : Q2) (subj : List Q2) : List Q2 :=
  ((cyclicPairs subj).map (fun se => clipPair u v se.1 se.2)).flatten

/-- Model of shapely `Polygon.intersection` with a convex clockwise clip
polygon: Sutherland–Hodgman clipping of the subject by every clip edge. -/
def sutherlandHodgman (subj clipPoly : List Q2) : List Q2 :=
  (cyclicPairs clipPoly).foldl (fun acc uv => clipEdge uv.1 uv.2 acc) subj

/-- Signed shoelace sum of a vertex ring. -/
def shoelace (l : List Q2) : ℚ :=
  ((cyclicPairs l).map (fun se => crossQ se.1 se.2)).sum

/-- Model of shapely `Polygon.area`: absolute shoelace area. -/
def areaQ (l : List Q2) : ℚ := |shoelace l| / 2

/-- Component list produced by the modelled intersection: empty geometry is
the empty list, otherwise a single component.  (shapely may additionally
separate a disconnected intersection into several components; the claims
about that selection are stated over an arbitrary component list, see
`clipSelect`.) -/
def shIntersect (poly clipPoly : List Q2) : List (List Q2) :=
  let r := sutherlandHodgman poly clipPoly
  if r.isEmpty then [] else [r]

/-- Error message raised by `clip_with_flat` (source line 110). -/
def clip_err_msg : String := "Flat clipping produced empty geometry. Check parameters."

/-- First maximal-area component, replicating Python
`max(out.geoms, key=lambda g: g.area)` (source line 113): the earliest
component whose area is not exceeded later. -/
def maxByArea (g : List Q2) (gs : List (List Q2)) : List Q2 :=
  gs.foldl (fun best h => if areaQ best < areaQ h then h else best) g

/-- Post-processing of the intersection result in `clip_with_flat`
(source lines 109-114): error on empty geometry; on a multi-component
result keep the largest component; otherwise return the single component. -/
def clipSelect (comps : List (List Q2)) : Except String (List Q2) :=
  match comps with
  | [] => .error clip_err_msg
  | [g] => .ok g
  | g :: rest => .ok (maxByArea g rest)

/-- Translation of `clip_with_flat(poly, p0, n_out)` (source lines 106-114):
intersect with the bounded keep-side quad of extent 10000 and post-process
with `clipSelect`. -/
def clip_with_flat (poly : List Q2) (p0 n_out : Q2) :
    Except String (List Q2) :=
  clipSelect (shIntersect poly (half_plane_polygon p0 n_out true 10000))

/-- Every point of the quad built with `keep_inside = true` satisfies the
keep-side inequality; conversely the quad's first edge lies on the boundary
line.  `dotn p0 n q` is the signed offset of `q` from the clip line. -/
def dotn (p0 n q : Q2) : ℚ := dotQ (vsub q p0) n

/-- Membership of `q` in all four half-planes bounding a convex clockwise
clip polygon (used to express that a point survives the clip). -/
def insideQuad (clipPoly : List Q2) (q : Q2) : Bool :=
  (cyclicPairs clipPoly).all (fun uv => insideEdge uv.1 uv.2 q)

instance : DecidableEq (Except String (List Q2)) := fun a b =>
  match a, b with
  | .ok x, .ok y => decidable_of_iff (x = y) (by simp)
  | .error x, .error y => decidable_of_iff (x = y) (by simp)
  | .ok _, .error _ => isFalse (by simp)
  | .error _, .ok _ => isFalse (by simp)

/-- Python-style wrapping index: `(j mod N)` as a natural number, with the
nonnegative remainder convention of Python (`Int.emod`). -/
def wrapIdx (N : ℕ) (j : Int) : ℕ := (j % (N : Int)).toNat

/-- Curvature score of sample `i` (source lines 138-152).  The source takes
the neighbors three samples before and after (wrapping), normalizes the two
chords with a real square root and stores `acos` of the clamped dot
product.  `acos` is strictly decreasing, so the embedding represents the
score by the pair `(v1·v2, |v1|²·|v2|²)`, i.e. the cosine `d / √s` in the
exact form `(d, s)`: ranking by descending angle is ranking by ascending
cosine (`cosLe`), and with exact arithmetic the clamp is a no-op by
Cauchy-Schwarz.  The degenerate-chord guard (`norm < 1e-9`, skipped sample
keeps score 0, i.e. angle 0, i.e. cosine 1) is the pair `(1, 1)`. -/
def scoreAt (pts : List Q2) (i : ℕ) : ℚ × ℚ :=
  let N := pts.length
  let p0 := pts.getD (wrapIdx N ((i : Int) - 3)) (0, 0)
  let p1 := pts.getD i (0, 0)
  let p2 := pts.getD (wrapIdx N ((i : Int) + 3)) (0, 0)
  let v1 := vsub p0 p1
  let v2 := vsub p2 p1
  let n1sq := dotQ v1 v1
  let n2sq := dotQ v2 v2
  if n1sq < 1 / 10 ^ 18 ∨ n2sq < 1 / 10 ^ 18 then (1, 1)
  else (dotQ v1 v2, n1sq * n2sq)

/-- Exact comparison of two scores-as-cosines: `cosLe (d₁, s₁) (d₂, s₂)`
decides `d₁ / √s₁ ≤ d₂ / √s₂` for positive `s₁, s₂` by sign analysis and
squaring. -/
def cosLe (x y : ℚ × ℚ) : Bool :=
  if x.1 ≤ 0 then
    if 0 ≤ y.1 then true else decide (y.1 ^ 2 * x.2 ≤ x.1 ^ 2 * y.2)
  else
    if y.1 ≤ 0 then false else decide (x.1 ^ 2 * y.2 ≤ y.1 ^ 2 * x.2)

/-- Ordering relation on sample indices: ascending cosine, i.e. descending
curvature angle — the order of `np.argsort(-score)` (source line 154). -/
def scoreRel (pts : List Q2) (i j : ℕ) : Prop :=
  cosLe (scoreAt pts i) (scoreAt pts j) = true

instance (pts : List Q2) : DecidableRel (scoreRel pts) :=
  fun i j => inferInstanceAs (Decidable (_ = true))

/-- Index list sorted by descending curvature score (stable; `np.argsort`
leaves tie order unspecified, the model fixes it by insertion sort). -/
def argsortScores (pts : List Q2) : List ℕ :=
  List.insertionSort (scoreRel pts) (List.range pts.length)

/-- Translation of `curvature_peaks(points, k=5)` (source lines 129-155):
returns the indices sorted by descending score together with the scores.
As in the source, the parameter `k` is never used — the neighbor offset is
hardcoded to 3 samples inside `scoreAt`. -/
def curvature_peaks (points : List Q2) (k : ℕ) : List ℕ × List (ℚ × ℚ) :=
  (argsortScores points, (List.range points.length).map (scoreAt points))

/-- Bounding box `(minx, miny, maxx, maxy)` of a vertex list (model of
shapely `Polygon.bounds`); `(0,0,0,0)` for the empty list. -/
def boundsOf (poly : List Q2) : ℚ × ℚ × ℚ × ℚ :=
  match poly with
  | [] => (0, 0, 0, 0)
  | p :: ps =>
    (ps.foldl (fun m q => min m q.1) p.1,
     ps.foldl (fun m q => min m q.2) p.2,
     ps.foldl (fun m q => max m q.1) p.1,
     ps.foldl (fun m q => max m q.2) p.2)

/-- The 400 top-ranked sample indices (`idx[:400]`, source line 192).  The
source samples the boundary into 2500 arclength-uniform points
(`sample_exterior`, which interpolates with real square-root arclengths and
therefore has no exact rational counterpart); the corner-detection logic is
embedded as a function of that sample sequence. -/
def top400 (pts : List Q2) : List ℕ := (curvature_peaks pts 5).1.take 400

/-- Longitudinal coordinate of sample `i` (`longcoord`, source lines
182/189). -/
def longCoord (pts : List Q2) (axis_is_x : Bool) (i : ℕ) : ℚ :=
  if axis_is_x then (pts.getD i (0, 0)).1 else (pts.getD i (0, 0)).2

/-- Lateral coordinate of sample `i` (`side`, source lines 181/188). -/
def sideCoord (pts : List Q2) (axis_is_x : Bool) (i : ℕ) : ℚ :=
  if axis_is_x then (pts.getD i (0, 0)).2 else (pts.getD i (0, 0)).1

/-- Lower edge of the waist band: 25% of the longitudinal extent
(source lines 178/185). -/
def bandLo (bnds : ℚ × ℚ × ℚ × ℚ) (axis_is_x : Bool) : ℚ :=
  let (minx, miny, maxx, maxy) := bnds
  if axis_is_x then minx + (maxx - minx) / 4 else miny + (maxy - miny) / 4

/-- Upper edge of the waist band: 75% of the longitudinal extent
(source lines 179/186). -/
def bandHi (bnds : ℚ × ℚ × ℚ × ℚ) (axis_is_x : Bool) : ℚ :=
  let (minx, miny, maxx, maxy) := bnds
  if axis_is_x then minx + 3 * (maxx - minx) / 4
  else miny + 3 * (maxy - miny) / 4

/-- Longitudinal midpoint `mid_long` (source line 170). -/
def midLong (bnds : ℚ × ℚ × ℚ × ℚ) (axis_is_x : Bool) : ℚ :=
  let (minx, miny, maxx, maxy) := bnds
  if axis_is_x then (minx + maxx) / 2 else (miny + maxy) / 2

/-- Top-ranked candidates restricted to the waist band
(`[i for i in idx[:400] if band[i]]`, source line 192). -/
def bandCands (pts : List Q2) (bnds : ℚ × ℚ × ℚ × ℚ) (axis_is_x : Bool) :
    List ℕ :=
  (top400 pts).filter (fun i =>
    decide (bandLo bnds axis_is_x ≤ longCoord pts axis_is_x i) &&
    decide (longCoord pts axis_is_x i ≤ bandHi bnds axis_is_x))

/-- Candidate set with the global fallback (source lines 192-194): the
band-restricted candidates, or all 400 top-ranked indices when fewer than
20 fall inside the band. -/
def candList (pts : List Q2) (bnds : ℚ × ℚ × ℚ × ℚ) (axis_is_x : Bool) :
    List ℕ :=
  let c := bandCands pts bnds axis_is_x
  if c.length < 20 then top400 pts else c

/-- Candidates on the upper side (`side[i] >= 0`, source line 197; note the
source compares the raw lateral coordinate with 0, not with the
bounding-box center). -/
def upperCands (pts : List Q2) (bnds : ℚ × ℚ × ℚ × ℚ) (axis_is_x : Bool) :
    List ℕ :=
  (candList pts bnds axis_is_x).filter (fun i =>
    decide (0 ≤ sideCoord pts axis_is_x i))

/-- Candidates on the lower side (`side[i] < 0`, source line 198). -/
def lowerCands (pts : List Q2) (bnds : ℚ × ℚ × ℚ × ℚ) (axis_is_x : Bool) :
    List ℕ :=
  (candList pts bnds axis_is_x).filter (fun i =>
    decide (sideCoord pts axis_is_x i < 0))

/-- Translation of the inner `pick_two_by_long(inds)` (source lines
200-209): split a side group into near-neck and near-end buckets by the
longitudinal midpoint and take the first (= highest-ranked) index of each;
if either bucket is empty, fall back to the first two indices of the group
(fewer if the group has fewer than two). -/
def pick_two_by_long (pts : List Q2) (bnds : ℚ × ℚ × ℚ × ℚ)
    (axis_is_x : Bool) (inds : List ℕ) : List ℕ :=
  let a := inds.filter (fun i =>
    decide (midLong bnds axis_is_x ≤ longCoord pts axis_is_x i))
  let b := inds.filter (fun i =>
    decide (longCoord pts axis_is_x i < midLong bnds axis_is_x))
  if a.isEmpty || b.isEmpty then inds.take 2
  else [a.headD 0, b.headD 0]

/-- Translation of `pick_four_corners(poly, axis_is_x)` (source lines
158-215) as a function of the boundary samples `pts` (the source calls
`sample_exterior(poly, 2500)`) and the polygon bounds `bnds`.  Returns the
selected corner points together with the bounding-box center. -/
def pick_four_corners (pts : List Q2) (bnds : ℚ × ℚ × ℚ × ℚ)
    (axis_is_x : Bool) : List Q2 × (ℚ × ℚ) :=
  let (minx, miny, maxx, maxy) := bnds
  let u2 := pick_two_by_long pts bnds axis_is_x (upperCands pts bnds axis_is_x)
  let l2 := pick_two_by_long pts bnds axis_is_x (lowerCands pts bnds axis_is_x)
  ((u2 ++ l2).map (fun i => pts.getD i (0, 0)),
   ((minx + maxx) / 2, (miny + maxy) / 2))

/-- Even-odd ray-crossing point-in-polygon test (model of shapely point
membership for a simple polygon). -/
def inPolygon (q : Q2) (poly : List Q2) : Bool :=
  (cyclicPairs poly).foldl
    (fun acc ab =>
      let p1 := ab.1
      let p2 := ab.2
      if (decide (q.2 < p1.2) != decide (q.2 < p2.2)) &&
          decide (q.1 < p1.1 + (p2.1 - p1.1) * (q.2 - p1.2) / (p2.2 - p1.2))
      then !acc else acc)
    false

/-- Squared distance between two points. -/
def distSq (p q : Q2) : ℚ := dotQ (vsub p q) (vsub p q)

/-- Squared distance from `q` to the segment `a b`. -/
def distSqSeg (q a b : Q2) : ℚ :=
  let l2 := distSq a b
  if l2 = 0 then distSq q a
  else
    let t := dotQ (vsub q a) (vsub b a) / l2
    let tc := max 0 (min 1 t)
    distSq q (a.1 + tc * (b.1 - a.1), a.2 + tc * (b.2 - a.2))

/-- Model of `poly.contains(Point(c).buffer(r))` (source lines 240/246):
the closed disk of radius `r` about `c` lies inside the simple polygon iff
the center is inside and no edge comes closer than `r`.  (shapely
approximates the disk by a 64-gon; the model uses the exact disk.) -/
def containsDisk (poly : List Q2) (c : Q2) (r : ℚ) : Bool :=
  inPolygon c poly &&
    (cyclicPairs poly).all (fun ab => decide (r ^ 2 ≤ distSqSeg c ab.1 ab.2))

/-- Translation of `default_pins(poly, axis_is_x, pin_diam)` (source lines
222-249): three candidate centers at 25%, 50%, 75% of the longitudinal
extent on the lateral centerline, kept only when the validation disk of
radius `1.2 × (pin_diam / 2)` is contained in the polygon.  The source also
computes an `x_center` value that it never uses; the dead assignment is
omitted. -/
def default_pins (poly : List Q2) (axis_is_x : Bool) (pin_diam : ℚ) :
    List (ℚ × ℚ × ℚ) :=
  let (minx, miny, maxx, maxy) := boundsOf poly
  let cx := (minx + maxx) / 2
  let cy := (miny + maxy) / 2
  let r := pin_diam / 2
  if axis_is_x then
    [minx + (maxx - minx) / 4, minx + (maxx - minx) / 2,
     minx + 3 * (maxx - minx) / 4].filterMap (fun x =>
      if containsDisk poly (x, cy) (r * (6 / 5)) then some (x, cy, r)
      else none)
  else
    [miny + (maxy - miny) / 4, miny + (maxy - miny) / 2,
     miny + 3 * (maxy - miny) / 4].filterMap (fun y =>
      if containsDisk poly (cx, y) (r * (6 / 5)) then some (cx, y, r)
      else none)

/-- Error message raised by `split_halves` (source line 267). -/
def split_err_msg : String := "Split did not produce two halves. Check axis orientation."

/-- Descending-area ordering on polygons, the sort key of
`sorted(parts.geoms, key=lambda g: g.area, reverse=True)`
(source line 269). -/
def areaGE (g h : List Q2) : Prop := areaQ h ≤ areaQ g

instance : DecidableRel areaGE :=
  fun g h => inferInstanceAs (Decidable (areaQ h ≤ areaQ g))

instance : IsTotal (List Q2) areaGE :=
  ⟨fun a b => le_total (areaQ b) (areaQ a)⟩

instance : IsTrans (List Q2) areaGE :=
  ⟨fun _ _ _ h1 h2 => le_trans h2 h1⟩

/-- Post-processing of the pieces produced by the centerline split
(source lines 266-270): error when fewer than two pieces exist, otherwise
the two largest by area. -/
def splitSelect (parts : List (List Q2)) :
    Except String (List Q2 × List Q2) :=
  if parts.length < 2 then .error split_err_msg
  else
    let s := List.insertionSort areaGE parts
    .ok (s.getD 0 [], s.getD 1 [])

/-- Model of `shapely.ops.split(poly, splitter)` for the axis-parallel
centerline splitter of source lines 257-263: the nonempty clips of the
polygon by the two closed half-planes on either side of the centerline
through the bounding-box center.  (shapely additionally separates each side
into connected components; `splitSelect` is therefore stated over an
arbitrary piece list.) -/
def splitPieces (poly : List Q2) (axis_is_x : Bool) : List (List Q2) :=
  let (minx, miny, maxx, maxy) := boundsOf poly
  let cx := (minx + maxx) / 2
  let cy := (miny + maxy) / 2
  let nA : Q2 := if axis_is_x then (0, 1) else (1, 0)
  let nB : Q2 := if axis_is_x then (0, -1) else (-1, 0)
  shIntersect poly (half_plane_polygon (cx, cy) nA true 10000) ++
    shIntersect poly (half_plane_polygon (cx, cy) nB true 10000)

/-- Translation of `split_halves(poly, axis_is_x)` (source lines 252-270). -/
def split_halves (poly : List Q2) (axis_is_x : Bool) :
    Except String (List Q2 × List Q2) :=
  splitSelect (splitPieces poly axis_is_x)

/-- The four corners of a bounding box `(minx, miny, maxx, maxy)`. -/
def bboxCorners (bnds : ℚ × ℚ × ℚ × ℚ) : List Q2 :=
  let (minx, miny, maxx, maxy) := bnds
  [(minx, miny), (maxx, miny), (maxx, maxy), (minx, maxy)]

/-! ### Structural lemmas about the cyclic edge traversal and the clipper -/

theorem cyclicPairs_map_snd {α : Type} (l : List α) (h : l ≠ []) :
    (cyclicPairs l).map Prod.snd = l := by
  match l with
  | [] => exact absurd rfl h
  | x :: xs =>
    show ((((x :: xs).getLast (by simp)) :: (x :: xs).dropLast).zip (x :: xs)).map
        Prod.snd = x :: xs
    apply List.map_snd_zip
    simp

theorem mem_fst_of_mem_cyclicPairs {α : Type} {l : List α} {s e : α}
    (hp : (s, e) ∈ cyclicPairs l) : s ∈ l := by
  match l with
  | [] => simp [cyclicPairs] at hp
  | x :: xs =>
    have h1 := (List.of_mem_zip hp).1
    rcases List.mem_cons.1 h1 with h2 | h2
    · exact h2 ▸ List.getLast_mem _
    · exact List.dropLast_subset _ h2

theorem mem_snd_of_mem_cyclicPairs {α : Type} {l : List α} {s e : α}
    (hp : (s, e) ∈ cyclicPairs l) : e ∈ l := by
  match l with
  | [] => simp [cyclicPairs] at hp
  | x :: xs => exact (List.of_mem_zip hp).2

theorem flatten_map_eq_of_singleton {α β : Type} (L : List α) (f : α → List β)
    (g : α → β) (h : ∀ x ∈ L, f x = [g x]) :
    (L.map f).flatten = L.map g := by
  induction L with
  | nil => rfl
  | cons x xs ih =>
    have hx := h x (List.mem_cons_self x xs)
    have ihs := ih (fun y hy => h y (List.mem_cons_of_mem x hy))
    simp only [List.map_cons, List.flatten_cons, hx, ihs, List.singleton_append]

theorem clipEdge_nil (u v : Q2) : clipEdge u v [] = [] := rfl

/-- A Sutherland–Hodgman pass leaves the subject unchanged when every
vertex is on the kept side of the clip edge. -/
theorem clipEdge_all_inside (u v : Q2) (subj : List Q2)
    (H : ∀ q ∈ subj, insideEdge u v q = true) :
    clipEdge u v subj = subj := by
  by_cases hne : subj = []
  · subst hne; rfl
  · unfold clipEdge
    rw [flatten_map_eq_of_singleton (cyclicPairs subj) _ Prod.snd]
    · exact cyclicPairs_map_snd subj hne
    · intro se hse
      have h1 : insideEdge u v se.1 = true :=
        H _ (mem_fst_of_mem_cyclicPairs (s := se.1) (e := se.2) hse)
      have h2 : insideEdge u v se.2 = true :=
        H _ (mem_snd_of_mem_cyclicPairs (s := se.1) (e := se.2) hse)
      simp [clipPair, h1, h2]

/-- A Sutherland–Hodgman pass deletes everything when every vertex is
strictly on the discarded side of the clip edge. -/
theorem clipEdge_all_outside (u v : Q2) (subj : List Q2)
    (H : ∀ q ∈ subj, insideEdge u v q = false) :
    clipEdge u v subj = [] := by
  unfold clipEdge
  rw [List.flatten_eq_nil_iff]
  intro l hl
  rw [List.mem_map] at hl
  obtain ⟨se, hse, rfl⟩ := hl
  have h1 : insideEdge u v se.1 = false :=
    H _ (mem_fst_of_mem_cyclicPairs (s := se.1) (e := se.2) hse)
  have h2 : insideEdge u v se.2 = false :=
    H _ (mem_snd_of_mem_cyclicPairs (s := se.1) (e := se.2) hse)
  simp [clipPair, h1, h2]

/-- A vertex on the kept side of the clip edge survives the pass. -/
theorem mem_clipEdge_of_inside (u v q : Q2) (subj : List Q2)
    (hq : q ∈ subj) (hin : insideEdge u v q = true) :
    q ∈ clipEdge u v subj := by
  have hne : subj ≠ [] := by rintro rfl; simp at hq
  have hsnd := cyclicPairs_map_snd subj hne
  have hm : q ∈ (cyclicPairs subj).map Prod.snd := by rw [hsnd]; exact hq
  rw [List.mem_map] at hm
  obtain ⟨se, hse, hq2⟩ := hm
  unfold clipEdge
  rw [List.mem_flatten]
  refine ⟨clipPair u v se.1 se.2, List.mem_map_of_mem _ hse, ?_⟩
  rw [clipPair, hq2, hin]
  by_cases h1 : insideEdge u v se.1 = true <;> simp [h1]

/-- Affine evaluation of the signed half-plane offset along a segment. -/
theorem dotn_affine (p0 n s e : Q2) (t : ℚ) :
    dotn p0 n (s.1 + t * (e.1 - s.1), s.2 + t * (e.2 - s.2)) =
      (1 - t) * dotn p0 n s + t * dotn p0 n e := by
  unfold dotn dotQ vsub
  ring

/-- Unfolding of the boolean inside test. -/
theorem insideEdge_iff (u v q : Q2) :
    insideEdge u v q = true ↔ crossQ (vsub v u) (vsub q u) ≤ 0 := by
  unfold insideEdge
  exact decide_eq_true_iff

/-- Unfolding of the negated boolean inside test. -/
theorem insideEdge_false_iff (u v q : Q2) :
    insideEdge u v q = false ↔ 0 < crossQ (vsub v u) (vsub q u) := by
  unfold insideEdge
  rw [decide_eq_false_iff_not, not_le]

/-- When exactly one endpoint of a subject edge is inside the clip edge,
the crossing parameter of `interEdge` lies in `[0, 1]` and the intersection
point evaluates as the corresponding convex combination of the endpoints. -/
theorem interEdge_convex (p0 n u v s e : Q2)
    (hne : insideEdge u v s ≠ insideEdge u v e) :
    ∃ t : ℚ, 0 ≤ t ∧ t ≤ 1 ∧
      dotn p0 n (interEdge u v s e) =
        (1 - t) * dotn p0 n s + t * dotn p0 n e := by
  have hcases :
      (crossQ (vsub v u) (vsub s u) ≤ 0 ∧ 0 < crossQ (vsub v u) (vsub e u)) ∨
      (0 < crossQ (vsub v u) (vsub s u) ∧ crossQ (vsub v u) (vsub e u) ≤ 0) := by
    rcases Bool.eq_false_or_eq_true (insideEdge u v s) with hs | hs
    · have hs' := (insideEdge_iff u v s).1 hs
      have he : insideEdge u v e = false := by
        cases he2 : insideEdge u v e
        · rfl
        · exact absurd (hs.trans he2.symm) hne
      exact Or.inl ⟨hs', (insideEdge_false_iff u v e).1 he⟩
    · have hs' := (insideEdge_false_iff u v s).1 hs
      have he : insideEdge u v e = true := by
        cases he2 : insideEdge u v e
        · exact absurd (hs.trans he2.symm) hne
        · rfl
      exact Or.inr ⟨hs', (insideEdge_iff u v e).1 he⟩
  refine ⟨crossQ (vsub v u) (vsub s u) /
      (crossQ (vsub v u) (vsub s u) - crossQ (vsub v u) (vsub e u)),
      ?_, ?_, ?_⟩
  · rcases hcases with ⟨h1, h2⟩ | ⟨h1, h2⟩
    · rw [div_nonneg_iff]
      right
      constructor <;> linarith
    · apply div_nonneg <;> linarith
  · rcases hcases with ⟨h1, h2⟩ | ⟨h1, h2⟩
    · rw [div_le_one_iff]
      right; right
      constructor <;> linarith
    · rw [div_le_one (by linarith)]
      linarith
  · exact dotn_affine p0 n s e _

/-- A Sutherland–Hodgman pass (against any clip edge) maps a subject whose
vertices are all strictly on the discard side of the half-plane line to
points that are still strictly on the discard side: surviving vertices are
subject vertices and emitted intersection points are convex combinations of
subject vertices. -/
theorem clipEdge_pos_dotn (p0 n u v : Q2) (subj : List Q2)
    (H : ∀ x ∈ subj, 0 < dotn p0 n x) :
    ∀ y ∈ clipEdge u v subj, 0 < dotn p0 n y := by
  intro y hy
  unfold clipEdge at hy
  rw [List.mem_flatten] at hy
  obtain ⟨l', hl', hyl⟩ := hy
  rw [List.mem_map] at hl'
  obtain ⟨se, hse, rfl⟩ := hl'
  have hs := H _ (mem_fst_of_mem_cyclicPairs (s := se.1) (e := se.2) hse)
  have he := H _ (mem_snd_of_mem_cyclicPairs (s := se.1) (e := se.2) hse)
  have hinter :
      insideEdge u v se.1 ≠ insideEdge u v se.2 →
        0 < dotn p0 n (interEdge u v se.1 se.2) := by
    intro hne
    obtain ⟨t, ht0, ht1, heq⟩ := interEdge_convex p0 n u v se.1 se.2 hne
    rw [heq]
    rcases eq_or_lt_of_le ht0 with h | h
    · rw [← h]
      ring_nf
      linarith
    · nlinarith [mul_pos h he, mul_nonneg (by linarith : (0:ℚ) ≤ 1 - t) hs.le]
  rw [clipPair] at hyl
  by_cases h2 : insideEdge u v se.2 = true <;>
    by_cases h1 : insideEdge u v se.1 = true
  · rw [if_pos h2, if_pos h1, List.mem_singleton] at hyl
    exact hyl ▸ he
  · have h1' : insideEdge u v se.1 = false := Bool.not_eq_true _ ▸ h1
    rw [if_pos h2, if_neg (by rw [h1']; exact Bool.false_ne_true)] at hyl
    rcases List.mem_pair.1 hyl with rfl | rfl
    · exact hinter (by rw [h1', h2]; exact (Bool.false_ne_true))
    · exact he
  · have h2' : insideEdge u v se.2 = false := Bool.not_eq_true _ ▸ h2
    rw [if_neg (by rw [h2']; exact Bool.false_ne_true), if_pos h1,
      List.mem_singleton] at hyl
    subst hyl
    exact hinter (by simp [h1, h2'])
  · have h1' : insideEdge u v se.1 = false := Bool.not_eq_true _ ▸ h1
    have h2' : insideEdge u v se.2 = false := Bool.not_eq_true _ ▸ h2
    rw [if_neg (by rw [h2']; exact Bool.false_ne_true),
      if_neg (by rw [h1']; exact Bool.false_ne_true)] at hyl
    simp at hyl

theorem half_plane_polygon_keep (p0 n : Q2) (ext : ℚ) :
    half_plane_polygon p0 n true ext =
      [hpA p0 n ext, hpB p0 n ext, hpC p0 n ext, hpD p0 n ext] := rfl

theorem sutherlandHodgman_quad (poly : List Q2) (p0 n : Q2) (ext : ℚ) :
    sutherlandHodgman poly (half_plane_polygon p0 n true ext) =
      clipEdge (hpC p0 n ext) (hpD p0 n ext)
        (clipEdge (hpB p0 n ext) (hpC p0 n ext)
          (clipEdge (hpA p0 n ext) (hpB p0 n ext)
            (clipEdge (hpD p0 n ext) (hpA p0 n ext) poly))) := rfl

/-- The first quad edge `a → b` lies on the clip line: its cross product
against a query point is `2·extent` times the signed keep-side offset. -/
theorem crossQ_hpAB (p0 n q : Q2) (ext : ℚ) :
    crossQ (vsub (hpB p0 n ext) (hpA p0 n ext)) (vsub q (hpA p0 n ext)) =
      2 * ext * dotn p0 n q := by
  simp only [hpA, hpB, crossQ, vsub, dotn, dotQ]
  ring

/-- For positive extent, the inside test against the quad edge on the clip
line is exactly the keep-side inequality `(q - p0)·n ≤ 0`. -/
theorem insideEdge_hpAB (p0 n q : Q2) (ext : ℚ) (hext : 0 < ext) :
    insideEdge (hpA p0 n ext) (hpB p0 n ext) q = decide (dotn p0 n q ≤ 0) := by
  unfold insideEdge
  rw [crossQ_hpAB]
  rw [decide_eq_decide]
  constructor
  · intro h
    nlinarith
  · intro h
    nlinarith

/-- With every vertex strictly on the discard side of the keep line, the
modelled intersection with the keep quad is empty: the pass against the
`a → b` edge deletes everything. -/
theorem sutherlandHodgman_empty_of_outside (poly : List Q2) (p0 n : Q2)
    (ext : ℚ) (hext : 0 < ext)
    (H : ∀ v ∈ poly, 0 < dotn p0 n v) :
    sutherlandHodgman poly (half_plane_polygon p0 n true ext) = [] := by
  rw [sutherlandHodgman_quad]
  have h1 : ∀ y ∈ clipEdge (hpD p0 n ext) (hpA p0 n ext) poly,
      0 < dotn p0 n y :=
    clipEdge_pos_dotn p0 n _ _ poly H
  have h2 : clipEdge (hpA p0 n ext) (hpB p0 n ext)
      (clipEdge (hpD p0 n ext) (hpA p0 n ext) poly) = [] := by
    apply clipEdge_all_outside
    intro q hq
    rw [insideEdge_hpAB p0 n q ext hext, decide_eq_false_iff_not, not_le]
    exact h1 q hq
  rw [h2]
  rfl

/-- The keep-quad membership test unfolded into its four edge tests. -/
theorem insideQuad_keep_iff (p0 n v0 : Q2) (ext : ℚ) :
    insideQuad (half_plane_polygon p0 n true ext) v0 = true ↔
      insideEdge (hpD p0 n ext) (hpA p0 n ext) v0 = true ∧
      insideEdge (hpA p0 n ext) (hpB p0 n ext) v0 = true ∧
      insideEdge (hpB p0 n ext) (hpC p0 n ext) v0 = true ∧
      insideEdge (hpC p0 n ext) (hpD p0 n ext) v0 = true := by
  unfold insideQuad
  rw [half_plane_polygon_keep]
  rw [show cyclicPairs [hpA p0 n ext, hpB p0 n ext, hpC p0 n ext, hpD p0 n ext] =
    [(hpD p0 n ext, hpA p0 n ext), (hpA p0 n ext, hpB p0 n ext),
     (hpB p0 n ext, hpC p0 n ext), (hpC p0 n ext, hpD p0 n ext)] from rfl]
  simp [List.all_cons, Bool.and_eq_true, and_assoc]

/-- A vertex inside the keep quad survives all four clipping passes. -/
theorem mem_sutherlandHodgman_of_insideQuad (poly : List Q2) (p0 n v0 : Q2)
    (ext : ℚ) (hv : v0 ∈ poly)
    (hin : insideQuad (half_plane_polygon p0 n true ext) v0 = true) :
    v0 ∈ sutherlandHodgman poly (half_plane_polygon p0 n true ext) := by
  obtain ⟨hda, hab, hbc, hcd⟩ := (insideQuad_keep_iff p0 n v0 ext).1 hin
  rw [sutherlandHodgman_quad]
  exact mem_clipEdge_of_inside _ _ _ _
    (mem_clipEdge_of_inside _ _ _ _
      (mem_clipEdge_of_inside _ _ _ _
        (mem_clipEdge_of_inside _ _ _ _ hv hda) hab) hbc) hcd

/-- A polygon all of whose vertices lie inside the keep quad passes through
all four clipping passes unchanged. -/
theorem sutherlandHodgman_id_of_insideQuad (poly : List Q2) (p0 n : Q2)
    (ext : ℚ)
    (H : ∀ v ∈ poly, insideQuad (half_plane_polygon p0 n true ext) v = true) :
    sutherlandHodgman poly (half_plane_polygon p0 n true ext) = poly := by
  have H4 := fun v hv => (insideQuad_keep_iff p0 n v ext).1 (H v hv)
  rw [sutherlandHodgman_quad]
  rw [clipEdge_all_inside _ _ poly (fun q hq => (H4 q hq).1)]
  rw [clipEdge_all_inside _ _ poly (fun q hq => (H4 q hq).2.1)]
  rw [clipEdge_all_inside _ _ poly (fun q hq => (H4 q hq).2.2.1)]
  exact clipEdge_all_inside _ _ poly (fun q hq => (H4 q hq).2.2.2)

theorem clip_with_flat_of_sh_nil (poly : List Q2) (p0 n : Q2)
    (h : sutherlandHodgman poly (half_plane_polygon p0 n true 10000) = []) :
    clip_with_flat poly p0 n = .error clip_err_msg := by
  simp only [clip_with_flat, shIntersect, h]
  rfl

theorem clip_with_flat_of_sh_cons (poly : List Q2) (p0 n : Q2)
    (g : Q2) (gs : List Q2)
    (h : sutherlandHodgman poly (half_plane_polygon p0 n true 10000) =
      g :: gs) :
    clip_with_flat poly p0 n = .ok (g :: gs) := by
  simp only [clip_with_flat, shIntersect, h]
  rfl

/-! ### Claim C1 -/

/-- Claim C1, counterexample.  The claim states that `Clip` fails with a
`GeometryError` if and only if the intersection of the polygon with the
keep region `{x : (x - p0)·n ≤ 0}` is empty, and in particular succeeds
whenever that intersection is non-empty.  This is false: the source
intersects with a bounded quad of extent 10000 rather than the unbounded
half-plane, so a unit square centered at `(-40001/2, 1/2)` — which lies
entirely inside the keep region of the half-plane through the origin with
normal `(1, 0)`, witnessed by its interior point below — is clipped to
empty geometry and `clip_with_flat` raises the error anyway. -/
theorem C1_counterexample :
    inPolygon (-40001/2, 1/2)
      [(-20001, 0), (-20000, 0), (-20000, 1), (-20001, 1)] = true ∧
    dotn (0, 0) (1, 0) (-40001/2, 1/2) ≤ 0 ∧
    clip_with_flat [(-20001, 0), (-20000, 0), (-20000, 1), (-20001, 1)]
      (0, 0) (1, 0) = .error clip_err_msg := by
  refine ⟨by decide, by decide, by decide⟩

/-- Claim C1, amended: `clip_with_flat` fails exactly when the intersection
with the *bounded* keep quad (extent 10000) is empty — not the unbounded
keep region.  In particular (i) every polygon lying entirely strictly on
the remove side (`0 < (v - p0)·n` for all vertices `v`) fails with the
`GeometryError`, (ii) every polygon with a vertex inside the bounded keep
quad returns a polygon without error, and (iii) the error occurs iff the
modelled intersection is empty. -/
theorem C1_amended (poly : List Q2) (p0 n : Q2) :
    ((∀ v ∈ poly, 0 < dotn p0 n v) →
        clip_with_flat poly p0 n = .error clip_err_msg) ∧
    ((∃ v ∈ poly, insideQuad (half_plane_polygon p0 n true 10000) v = true) →
        ∃ g, clip_with_flat poly p0 n = .ok g) ∧
    (clip_with_flat poly p0 n = .error clip_err_msg ↔
        sutherlandHodgman poly (half_plane_polygon p0 n true 10000) = []) := by
  refine ⟨?_, ?_, ?_, ?_⟩
  · intro H
    exact clip_with_flat_of_sh_nil poly p0 n
      (sutherlandHodgman_empty_of_outside poly p0 n 10000 (by norm_num) H)
  · rintro ⟨v, hv, hin⟩
    have hmem := mem_sutherlandHodgman_of_insideQuad poly p0 n v 10000 hv hin
    cases hsh : sutherlandHodgman poly (half_plane_polygon p0 n true 10000) with
    | nil => rw [hsh] at hmem; simp at hmem
    | cons g gs => exact ⟨g :: gs, clip_with_flat_of_sh_cons poly p0 n g gs hsh⟩
  · intro h
    cases hsh : sutherlandHodgman poly (half_plane_polygon p0 n true 10000) with
    | nil => rfl
    | cons g gs =>
      rw [clip_with_flat_of_sh_cons poly p0 n g gs hsh] at h
      exact absurd h (by simp)
  · intro h
    exact clip_with_flat_of_sh_nil poly p0 n h

/-- Claim C1, witness for the amended theorem: a unit square strictly on
the remove side fails with the error, and a unit square inside the keep
quad clips without error. -/
theorem C1_witness :
    clip_with_flat [(1, 1), (2, 1), (2, 2), (1, 2)] (0, 0) (1, 0) =
        .error clip_err_msg ∧
    ∃ g, clip_with_flat [(-1, -1), (-2, -1), (-2, -2), (-1, -2)]
        (0, 0) (1, 0) = .ok g :=
  ⟨(C1_amended [(1, 1), (2, 1), (2, 2), (1, 2)] (0, 0) (1, 0)).1 (by decide),
   (C1_amended [(-1, -1), (-2, -1), (-2, -2), (-1, -2)] (0, 0) (1, 0)).2.1
     (by decide)⟩

/-! ### Claim C7 -/

/-- Claim C7, counterexample.  The claim states that for every polygon,
clipping with a half-plane whose anchor lies outside the polygon's
bounding box on the keep side leaves the polygon unchanged (area delta 0).
This is false for polygons extending beyond the bounded quad: the
30000×30000 square below has its whole bounding box strictly on the keep
side of the half-plane anchored at `(1, 0)` with normal `(1, 0)`, yet the
clip truncates it to a 9999×10000 rectangle, shrinking its area from
9·10⁸ to 99990000. -/
theorem C7_counterexample :
    (∀ c ∈ bboxCorners (boundsOf
        [(-30000, -30000), (0, -30000), (0, 0), (-30000, 0)]),
      dotn (1, 0) (1, 0) c < 0) ∧
    clip_with_flat [(-30000, -30000), (0, -30000), (0, 0), (-30000, 0)]
        (1, 0) (1, 0) =
      .ok [(-9999, -10000), (0, -10000), (0, 0), (-9999, 0)] ∧
    areaQ [(-9999, -10000), (0, -10000), (0, 0), (-9999, 0)] <
      areaQ [(-30000, -30000), (0, -30000), (0, 0), (-30000, 0)] := by
  refine ⟨by decide, by decide, by decide⟩

/-- Claim C7, amended: clipping with a half-plane whose anchor lies outside
the polygon's bounding box on the keep side is the identity *provided the
polygon also lies inside the bounded keep quad of extent 10000*: the clip
then returns the polygon itself (so the area delta is exactly zero). -/
theorem C7_amended (poly : List Q2) (p0 n : Q2) (hne : poly ≠ [])
    (hbox : ∀ c ∈ bboxCorners (boundsOf poly), dotn p0 n c < 0)
    (hquad : ∀ v ∈ poly,
      insideQuad (half_plane_polygon p0 n true 10000) v = true) :
    clip_with_flat poly p0 n = .ok poly ∧
      (∀ g, clip_with_flat poly p0 n = .ok g → areaQ g = areaQ poly) := by
  have hid := sutherlandHodgman_id_of_insideQuad poly p0 n 10000 hquad
  have hok : clip_with_flat poly p0 n = .ok poly := by
    cases hpoly : poly with
    | nil => exact absurd hpoly hne
    | cons x xs =>
      rw [hpoly] at hid
      rw [← hpoly] at hid ⊢
      rw [hpoly] at hid ⊢
      exact clip_with_flat_of_sh_cons _ p0 n x xs hid
  refine ⟨hok, ?_⟩
  intro g hg
  rw [hok] at hg
  cases hg
  rfl

/-- Claim C7, witness for the amended theorem: the unit square clipped by
the half-plane anchored at `(50, 0)` with normal `(1, 0)` (anchor outside
the box on the keep side, square well inside the quad) is returned
unchanged. -/
theorem C7_witness :
    clip_with_flat [(0, 0), (1, 0), (1, 1), (0, 1)] (50, 0) (1, 0) =
        .ok [(0, 0), (1, 0), (1, 1), (0, 1)] ∧
      (∀ g, clip_with_flat [(0, 0), (1, 0), (1, 1), (0, 1)] (50, 0) (1, 0) =
          .ok g →
        areaQ g = areaQ [(0, 0), (1, 0), (1, 1), (0, 1)]) :=
  C7_amended [(0, 0), (1, 0), (1, 1), (0, 1)] (50, 0) (1, 0)
    (by decide) (by decide) (by decide)

/-! ### Claim C5 -/

/-- Python's `max(geoms, key=area)` as modelled by `maxByArea` returns an
element of the list whose area dominates every element. -/
theorem maxByArea_spec (gs : List (List Q2)) (g : List Q2) :
    maxByArea g gs ∈ g :: gs ∧
      areaQ g ≤ areaQ (maxByArea g gs) ∧
      ∀ x ∈ gs, areaQ x ≤ areaQ (maxByArea g gs) := by
  induction gs generalizing g with
  | nil =>
    refine ⟨List.mem_cons_self g [], le_refl _, ?_⟩
    intro x hx
    simp at hx
  | cons h t ih =>
    obtain ⟨m1, m2, m3⟩ := ih (if areaQ g < areaQ h then h else g)
    have hstep : maxByArea g (h :: t) =
        maxByArea (if areaQ g < areaQ h then h else g) t := rfl
    have hg2 : areaQ g ≤ areaQ (if areaQ g < areaQ h then h else g) := by
      by_cases hc : areaQ g < areaQ h
      · rw [if_pos hc]; exact le_of_lt hc
      · rw [if_neg hc]
    have hh2 : areaQ h ≤ areaQ (if areaQ g < areaQ h then h else g) := by
      by_cases hc : areaQ g < areaQ h
      · rw [if_pos hc]
      · rw [if_neg hc]; exact le_of_not_lt hc
    refine ⟨?_, ?_, ?_⟩
    · rw [hstep]
      rcases List.mem_cons.1 m1 with hm | hm
      · rw [hm]
        by_cases hc : areaQ g < areaQ h
        · rw [if_pos hc]
          exact List.mem_cons_of_mem _ (List.mem_cons_self _ _)
        · rw [if_neg hc]
          exact List.mem_cons_self _ _
      · exact List.mem_cons_of_mem _ (List.mem_cons_of_mem _ hm)
    · rw [hstep]
      exact le_trans hg2 m2
    · intro x hx
      rw [hstep]
      rcases List.mem_cons.1 hx with rfl | hx2
      · exact le_trans hh2 m2
      · exact m3 x hx2

/-- Claim C5, confirmed: whenever the intersection result has two or more
components (a shapely `MultiPolygon`), the clip post-processing returns a
component of maximum area and discards the others.  Stated over an
arbitrary component list since the component decomposition itself is
produced by the external geometry kernel. -/
theorem C5_clip_largest_component (comps : List (List Q2))
    (h2 : 2 ≤ comps.length) :
    ∃ g, clipSelect comps = .ok g ∧ g ∈ comps ∧
      ∀ g2 ∈ comps, areaQ g2 ≤ areaQ g := by
  match comps with
  | [] => simp at h2
  | [g] => simp at h2
  | g :: h :: t =>
    obtain ⟨m1, m2, m3⟩ := maxByArea_spec (h :: t) g
    refine ⟨maxByArea g (h :: t), rfl, m1, ?_⟩
    intro g2 hg2
    rcases List.mem_cons.1 hg2 with rfl | hg3
    · exact m2
    · exact m3 g2 hg3

/-- Claim C5, witness: a two-component result (unit right triangle and a
4×4 square) selects the square. -/
theorem C5_witness :
    2 ≤ ([[(0, 0), (1, 0), (1, 1)], [(0, 0), (4, 0), (4, 4), (0, 4)]] :
        List (List Q2)).length ∧
    ∃ g, clipSelect [[(0, 0), (1, 0), (1, 1)],
        [(0, 0), (4, 0), (4, 4), (0, 4)]] = .ok g ∧
      g ∈ [[(0, 0), (1, 0), (1, 1)], [(0, 0), (4, 0), (4, 4), (0, 4)]] ∧
      ∀ g2 ∈ [[(0, 0), (1, 0), (1, 1)], [(0, 0), (4, 0), (4, 4), (0, 4)]],
        areaQ g2 ≤ areaQ g :=
  ⟨by decide, C5_clip_largest_component _ (by decide)⟩

/-! ### Claim C4 -/

/-- Claim C4, confirmed: the centerline split fails with the
`GeometryError` when the division produces fewer than two pieces, and
otherwise returns the two largest pieces by area (discarding the rest);
`split_halves` is exactly this selection applied to the pieces of the
modelled division.  Stated over an arbitrary piece list since the division
itself is performed by the external geometry kernel. -/
theorem C4_split_two_largest (parts : List (List Q2)) :
    (parts.length < 2 → splitSelect parts = .error split_err_msg) ∧
    (2 ≤ parts.length →
      ∃ a b rest, splitSelect parts = .ok (a, b) ∧
        parts.Perm (a :: b :: rest) ∧
        areaQ b ≤ areaQ a ∧
        ∀ g ∈ rest, areaQ g ≤ areaQ b) ∧
    (∀ (poly : List Q2) (axis_is_x : Bool),
      split_halves poly axis_is_x = splitSelect (splitPieces poly axis_is_x)) := by
  refine ⟨?_, ?_, fun _ _ => rfl⟩
  · intro h
    unfold splitSelect
    rw [if_pos h]
  · intro h
    have hlen : 2 ≤ (List.insertionSort areaGE parts).length := by
      rw [List.length_insertionSort]
      exact h
    have hperm := (List.perm_insertionSort areaGE parts).symm
    have hsorted := List.sorted_insertionSort areaGE parts
    rcases hlist : List.insertionSort areaGE parts with _ | ⟨a, _ | ⟨b, rest⟩⟩
    · rw [hlist] at hlen
      simp at hlen
    · rw [hlist] at hlen
      simp at hlen
    · rw [hlist] at hperm hsorted
      obtain ⟨hab, hsorted2⟩ := List.sorted_cons.1 hsorted
      obtain ⟨hbrest, _⟩ := List.sorted_cons.1 hsorted2
      refine ⟨a, b, rest, ?_, hperm, hab b (List.mem_cons_self b rest), ?_⟩
      · unfold splitSelect
        rw [if_neg (not_lt.2 h), hlist]
        rfl
      · intro g hg
        exact hbrest g hg

/-- Claim C4, witness: a one-piece list fails with the error; a three-piece
list returns the two largest pieces. -/
theorem C4_witness :
    splitSelect [[(0, 0), (1, 0), (1, 1)]] = .error split_err_msg ∧
    (2 ≤ ([[(0, 0), (1, 0), (1, 1)], [(0, 0), (8, 0), (8, 8), (0, 8)],
        [(0, 0), (2, 0), (2, 2), (0, 2)]] : List (List Q2)).length ∧
      ∃ a b rest,
        splitSelect [[(0, 0), (1, 0), (1, 1)], [(0, 0), (8, 0), (8, 8), (0, 8)],
          [(0, 0), (2, 0), (2, 2), (0, 2)]] = .ok (a, b) ∧
        ([[(0, 0), (1, 0), (1, 1)], [(0, 0), (8, 0), (8, 8), (0, 8)],
          [(0, 0), (2, 0), (2, 2), (0, 2)]] : List (List Q2)).Perm
          (a :: b :: rest) ∧
        areaQ b ≤ areaQ a ∧
        ∀ g ∈ rest, areaQ g ≤ areaQ b) :=
  ⟨(C4_split_two_largest [[(0, 0), (1, 0), (1, 1)]]).1 (by decide),
   by decide,
   (C4_split_two_largest _).2.1 (by decide)⟩

/-! ### Claim C3 -/

/-- Specification of the candidate filter shared by both axis branches of
`default_pins`: at most as many holes as candidates, and every accepted
hole carries the pin radius and passes the inflated-disk containment
test. -/
theorem pins_filter_spec (poly : List Q2) (rdisk rhole : ℚ) (f : ℚ → Q2)
    (cands : List ℚ) :
    (cands.filterMap (fun x =>
        if containsDisk poly (f x) rdisk then some ((f x).1, (f x).2, rhole)
        else none)).length ≤ cands.length ∧
    ∀ hole ∈ cands.filterMap (fun x =>
        if containsDisk poly (f x) rdisk then some ((f x).1, (f x).2, rhole)
        else none),
      hole.2.2 = rhole ∧
        containsDisk poly (hole.1, hole.2.1) rdisk = true := by
  constructor
  · exact List.length_filterMap_le _ _
  · intro hole hh
    rw [List.mem_filterMap] at hh
    obtain ⟨x, hx, hfx⟩ := hh
    by_cases hc : containsDisk poly (f x) rdisk = true
    · rw [if_pos hc] at hfx
      cases hfx
      refine ⟨rfl, ?_⟩
      simpa using hc
    · rw [if_neg hc] at hfx
      cases hfx

/-- Claim C3, confirmed: `default_pins` returns at most three holes, every
returned hole has radius `pin_diam / 2`, and the validation disk of radius
`1.2 × (pin_diam / 2)` centered at the hole is contained in the polygon
(the containment criterion `containsDisk` is exactly the test that accepted
the candidate; rejected candidates are dropped without error, as
`default_pins` is a total function). -/
theorem C3_pins_contained (poly : List Q2) (axis_is_x : Bool)
    (pin_diam : ℚ) :
    (default_pins poly axis_is_x pin_diam).length ≤ 3 ∧
    ∀ hole ∈ default_pins poly axis_is_x pin_diam,
      hole.2.2 = pin_diam / 2 ∧
        containsDisk poly (hole.1, hole.2.1) (pin_diam / 2 * (6 / 5)) =
          true := by
  unfold default_pins
  obtain ⟨minx, miny, maxx, maxy⟩ := boundsOf poly
  cases axis_is_x with
  | true =>
    simpa using pins_filter_spec poly (pin_diam / 2 * (6 / 5)) (pin_diam / 2)
      (fun x => (x, (miny + maxy) / 2))
      [minx + (maxx - minx) / 4, minx + (maxx - minx) / 2,
       minx + 3 * (maxx - minx) / 4]
  | false =>
    simpa using pins_filter_spec poly (pin_diam / 2 * (6 / 5)) (pin_diam / 2)
      (fun y => ((minx + maxx) / 2, y))
      [miny + (maxy - miny) / 4, miny + (maxy - miny) / 2,
       miny + 3 * (maxy - miny) / 4]

/-- Claim C3, witness: on a 100×100 square with pin diameter 6, the hole at
`(25, 50)` is returned with radius 3 and its inflated disk is contained. -/
theorem C3_witness :
    (25, 50, 3) ∈ default_pins [(0, 0), (100, 0), (100, 100), (0, 100)]
        true 6 ∧
    ((25, 50, 3) : ℚ × ℚ × ℚ).2.2 = 6 / 2 ∧
    containsDisk [(0, 0), (100, 0), (100, 100), (0, 100)] (25, 50)
        (6 / 2 * (6 / 5)) = true :=
  ⟨by decide,
   (C3_pins_contained [(0, 0), (100, 0), (100, 100), (0, 100)] true 6).2
     (25, 50, 3) (by decide)⟩

/-! ### Claims C2, C8, C9, C10 -/

/-- Complementary boolean filters partition a list's length. -/
theorem length_filter_add_length_filter_compl {α : Type} (l : List α)
    (p q : α → Bool) (hpq : ∀ x, q x = !p x) :
    (l.filter p).length + (l.filter q).length = l.length := by
  induction l with
  | nil => rfl
  | cons x xs ih =>
    rw [List.filter_cons, List.filter_cons, hpq x]
    cases hx : p x with
    | true => simp [hx]; omega
    | false => simp [hx]; omega

/-- The two longitudinal-bucket filters of `pick_two_by_long` are
complementary. -/
theorem bucket_filters_compl (pts : List Q2) (bnds : ℚ × ℚ × ℚ × ℚ)
    (axis_is_x : Bool) :
    ∀ i : ℕ, (fun i => decide (longCoord pts axis_is_x i <
        midLong bnds axis_is_x)) i =
      !(fun i => decide (midLong bnds axis_is_x ≤
        longCoord pts axis_is_x i)) i := by
  intro i
  by_cases h : midLong bnds axis_is_x ≤ longCoord pts axis_is_x i
  · simp [h, not_lt.2 h]
  · simp [h, not_le.1 h]

/-- `pick_two_by_long` returns `min 2 |inds|` indices: two when both
buckets are occupied (which forces `|inds| ≥ 2`), and the first
`min 2 |inds|` group indices in the fallback. -/
theorem pick_two_by_long_length (pts : List Q2) (bnds : ℚ × ℚ × ℚ × ℚ)
    (axis_is_x : Bool) (inds : List ℕ) :
    (pick_two_by_long pts bnds axis_is_x inds).length = min 2 inds.length := by
  unfold pick_two_by_long
  have hpart := length_filter_add_length_filter_compl inds
    (fun i => decide (midLong bnds axis_is_x ≤ longCoord pts axis_is_x i))
    (fun i => decide (longCoord pts axis_is_x i < midLong bnds axis_is_x))
    (bucket_filters_compl pts bnds axis_is_x)
  by_cases hab :
      ((inds.filter (fun i =>
          decide (midLong bnds axis_is_x ≤ longCoord pts axis_is_x i))).isEmpty ||
        (inds.filter (fun i =>
          decide (longCoord pts axis_is_x i < midLong bnds axis_is_x))).isEmpty) = true
  · rw [if_pos hab]
    simp [List.length_take]
  · rw [if_neg hab]
    rw [Bool.or_eq_true, not_or] at hab
    obtain ⟨ha, hb⟩ := hab
    have ha' : (inds.filter (fun i =>
        decide (midLong bnds axis_is_x ≤ longCoord pts axis_is_x i))) ≠ [] := by
      intro h
      exact ha (by rw [h]; rfl)
    have hb' : (inds.filter (fun i =>
        decide (longCoord pts axis_is_x i < midLong bnds axis_is_x))) ≠ [] := by
      intro h
      exact hb (by rw [h]; rfl)
    have h1 := List.length_pos.2 ha'
    have h2 := List.length_pos.2 hb'
    have hge : 2 ≤ inds.length := by omega
    rw [min_eq_left hge]
    rfl

/-- Every index returned by `pick_two_by_long` comes from the input
group. -/
theorem pick_two_by_long_subset (pts : List Q2) (bnds : ℚ × ℚ × ℚ × ℚ)
    (axis_is_x : Bool) (inds : List ℕ) :
    ∀ i ∈ pick_two_by_long pts bnds axis_is_x inds, i ∈ inds := by
  intro i hi
  unfold pick_two_by_long at hi
  by_cases hab :
      ((inds.filter (fun i =>
          decide (midLong bnds axis_is_x ≤ longCoord pts axis_is_x i))).isEmpty ||
        (inds.filter (fun i =>
          decide (longCoord pts axis_is_x i < midLong bnds axis_is_x))).isEmpty) = true
  · rw [if_pos hab] at hi
    exact List.take_subset _ _ hi
  · rw [if_neg hab] at hi
    rw [Bool.or_eq_true, not_or] at hab
    obtain ⟨ha, hb⟩ := hab
    rcases List.mem_pair.1 hi with rfl | rfl
    · rcases hfa : inds.filter (fun i =>
          decide (midLong bnds axis_is_x ≤ longCoord pts axis_is_x i)) with _ | ⟨x, xs⟩
      · exact absurd (by rw [hfa]; rfl) ha
      · have hx : x ∈ inds.filter (fun i =>
            decide (midLong bnds axis_is_x ≤ longCoord pts axis_is_x i)) := by
          rw [hfa]
          exact List.mem_cons_self _ _
        simpa using List.mem_of_mem_filter hx
    · rcases hfb : inds.filter (fun i =>
          decide (longCoord pts axis_is_x i < midLong bnds axis_is_x)) with _ | ⟨y, ys⟩
      · exact absurd (by rw [hfb]; rfl) hb
      · have hy : y ∈ inds.filter (fun i =>
            decide (longCoord pts axis_is_x i < midLong bnds axis_is_x)) := by
          rw [hfb]
          exact List.mem_cons_self _ _
        simpa using List.mem_of_mem_filter hy

/-- Every candidate index is one of the 400 top-ranked indices, in both the
band-restricted and the fallback path. -/
theorem candList_subset_top400 (pts : List Q2) (bnds : ℚ × ℚ × ℚ × ℚ)
    (axis_is_x : Bool) :
    ∀ i ∈ candList pts bnds axis_is_x, i ∈ top400 pts := by
  intro i hi
  unfold candList at hi
  by_cases h : (bandCands pts bnds axis_is_x).length < 20
  · rw [if_pos h] at hi
    exact hi
  · rw [if_neg h] at hi
    unfold bandCands at hi
    exact List.mem_of_mem_filter hi

/-- Claim C2, counterexample.  The claim states that `FindCorners` returns
exactly four points for every valid input polygon.  It does not: the
source compares the raw lateral coordinate with 0 (not with the
bounding-box center), so for an outline lying entirely below the x-axis
the upper side group is empty and its fallback `inds[:2]` contributes no
points — only two corners are returned for the boundary samples of the
rectangle `[0,100] × [-10,-1]` below. -/
theorem C2_counterexample :
    (pick_four_corners
      [(0, -1), (50, -1), (100, -1), (100, -5), (100, -10), (50, -10),
       (0, -10), (0, -5)] (0, -10, 100, -1) true).1.length = 2 := by decide

/-- Claim C2, amended: for every boundary sample sequence,
`pick_four_corners` returns `min 2 |upper| + min 2 |lower|` points — one
per longitudinal bucket when both buckets of a side group are occupied,
otherwise the (up to) two highest-ranked candidates of the group — so the
total is four exactly when each side group holds at least two candidates;
a group with fewer candidates contributes only what it has. -/
theorem C2_amended (pts : List Q2) (bnds : ℚ × ℚ × ℚ × ℚ)
    (axis_is_x : Bool) :
    (pick_four_corners pts bnds axis_is_x).1.length =
      min 2 (upperCands pts bnds axis_is_x).length +
        min 2 (lowerCands pts bnds axis_is_x).length ∧
    (2 ≤ (upperCands pts bnds axis_is_x).length →
      2 ≤ (lowerCands pts bnds axis_is_x).length →
      (pick_four_corners pts bnds axis_is_x).1.length = 4) := by
  obtain ⟨b1, b2, b3, b4⟩ := bnds
  have hlen : (pick_four_corners pts (b1, b2, b3, b4) axis_is_x).1.length =
      (pick_two_by_long pts (b1, b2, b3, b4) axis_is_x
        (upperCands pts (b1, b2, b3, b4) axis_is_x)).length +
      (pick_two_by_long pts (b1, b2, b3, b4) axis_is_x
        (lowerCands pts (b1, b2, b3, b4) axis_is_x)).length := by
    simp [pick_four_corners]
  rw [hlen, pick_two_by_long_length, pick_two_by_long_length]
  refine ⟨rfl, ?_⟩
  intro hu hl
  rw [min_eq_left hu, min_eq_left hl]

/-- Claim C2, witness for the amended theorem: samples of a rectangle
straddling the x-axis have two candidates on each side, so exactly four
corners are returned. -/
theorem C2_witness :
    (pick_four_corners [(0, -10), (100, -10), (100, 10), (0, 10)]
      (0, -10, 100, 10) true).1.length = 4 :=
  (C2_amended [(0, -10), (100, -10), (100, 10), (0, 10)]
    (0, -10, 100, 10) true).2 (by decide) (by decide)

/-- Claim C8, confirmed: the candidate set is the 400 top-ranked samples
restricted to the waist band — the central 50% of the longitudinal extent,
from 25% to 75% (`bandLo`/`bandHi`) — and when fewer than 20 candidates
fall inside the band the candidate set falls back to the full top-ranked
global candidate list `top400`. -/
theorem C8_waist_band (pts : List Q2) (bnds : ℚ × ℚ × ℚ × ℚ)
    (axis_is_x : Bool) :
    ((bandCands pts bnds axis_is_x).length < 20 →
      candList pts bnds axis_is_x = top400 pts) ∧
    (20 ≤ (bandCands pts bnds axis_is_x).length →
      candList pts bnds axis_is_x = bandCands pts bnds axis_is_x ∧
      ∀ i ∈ candList pts bnds axis_is_x,
        bandLo bnds axis_is_x ≤ longCoord pts axis_is_x i ∧
        longCoord pts axis_is_x i ≤ bandHi bnds axis_is_x) := by
  constructor
  · intro h
    unfold candList
    rw [if_pos h]
  · intro h
    have he : candList pts bnds axis_is_x = bandCands pts bnds axis_is_x := by
      unfold candList
      rw [if_neg (not_lt.2 h)]
    refine ⟨he, ?_⟩
    intro i hi
    rw [he] at hi
    unfold bandCands at hi
    rw [List.mem_filter] at hi
    have hcond := hi.2
    rw [Bool.and_eq_true] at hcond
    exact ⟨of_decide_eq_true hcond.1, of_decide_eq_true hcond.2⟩

/-- Claim C8, witness: the all-lower rectangle samples have only 2 band
candidates, so the fallback to the global top-ranked candidates fires; a
column of 24 samples at the longitudinal midpoint has 24 ≥ 20 band
candidates, so the candidate set is the band-restricted list. -/
theorem C8_witness :
    candList
      [(0, -1), (50, -1), (100, -1), (100, -5), (100, -10), (50, -10),
       (0, -10), (0, -5)] (0, -10, 100, -1) true =
      top400
        [(0, -1), (50, -1), (100, -1), (100, -5), (100, -10), (50, -10),
         (0, -10), (0, -5)] ∧
    (candList ((List.range 24).map (fun i => ((50 : ℚ), (i : ℚ))))
        (0, 0, 100, 23) true =
      bandCands ((List.range 24).map (fun i => ((50 : ℚ), (i : ℚ))))
        (0, 0, 100, 23) true ∧
      ∀ i ∈ candList ((List.range 24).map (fun i => ((50 : ℚ), (i : ℚ))))
          (0, 0, 100, 23) true,
        bandLo (0, 0, 100, 23) true ≤
          longCoord ((List.range 24).map (fun i => ((50 : ℚ), (i : ℚ))))
            true i ∧
        longCoord ((List.range 24).map (fun i => ((50 : ℚ), (i : ℚ))))
            true i ≤ bandHi (0, 0, 100, 23) true) :=
  ⟨(C8_waist_band _ _ _).1 (by decide), (C8_waist_band _ _ _).2 (by decide)⟩

/-- Claim C9, confirmed: `curvature_peaks` ignores its neighbor-offset
parameter `k` — the offset is hardcoded to 3 samples before and after in
`scoreAt` — so the returned scores and index ordering are identical for
any two values of `k`. -/
theorem C9_curvature_k_unused (points : List Q2) (k1 k2 : ℕ) :
    curvature_peaks points k1 = curvature_peaks points k2 := rfl

/-- Claim C10, confirmed: every corner point returned by the corner
detector is one of the 400 samples ranked highest by the curvature score —
both the waist-band filter and every fallback path draw only from
`top400`. -/
theorem C10_corners_in_top400 (pts : List Q2) (bnds : ℚ × ℚ × ℚ × ℚ)
    (axis_is_x : Bool) :
    ∀ c ∈ (pick_four_corners pts bnds axis_is_x).1,
      ∃ i ∈ top400 pts, c = pts.getD i (0, 0) := by
  obtain ⟨b1, b2, b3, b4⟩ := bnds
  intro c hc
  have hc2 : c ∈ (pick_two_by_long pts (b1, b2, b3, b4) axis_is_x
        (upperCands pts (b1, b2, b3, b4) axis_is_x) ++
      pick_two_by_long pts (b1, b2, b3, b4) axis_is_x
        (lowerCands pts (b1, b2, b3, b4) axis_is_x)).map
        (fun i => pts.getD i (0, 0)) := by
    simpa [pick_four_corners] using hc
  rw [List.mem_map] at hc2
  obtain ⟨i, hi, rfl⟩ := hc2
  refine ⟨i, ?_, rfl⟩
  rcases List.mem_append.1 hi with h | h
  · have h2 := pick_two_by_long_subset pts (b1, b2, b3, b4) axis_is_x _ i h
    unfold upperCands at h2
    exact candList_subset_top400 pts (b1, b2, b3, b4) axis_is_x i
      (List.mem_of_mem_filter h2)
  · have h2 := pick_two_by_long_subset pts (b1, b2, b3, b4) axis_is_x _ i h
    unfold lowerCands at h2
    exact candList_subset_top400 pts (b1, b2, b3, b4) axis_is_x i
      (List.mem_of_mem_filter h2)

/-- Claim C10, witness: the first corner returned for the rectangle
samples is one of the top-ranked samples. -/
theorem C10_witness :
    ∃ i ∈ top400 [(0, -10), (100, -10), (100, 10), (0, 10)],
      ((pick_four_corners [(0, -10), (100, -10), (100, 10), (0, 10)]
          (0, -10, 100, 10) true).1.getD 0 (0, 0)) =
        ([(0, -10), (100, -10), (100, 10), (0, 10)] : List Q2).getD i
          (0, 0) :=
  C10_corners_in_top400 [(0, -10), (100, -10), (100, 10), (0, 10)]
    (0, -10, 100, 10) true _ (by decide)
